import Mathlib

/-!
# mjpeg-server: request handler and connection state machine

A shallow embedding of `src/request_handler.cpp` and `src/connection.cpp`.

* `std::string` is a list of bytes (`List Nat`), a byte being a natural number;
  `static_cast<char>` of an `int` is reduction modulo 256.
* `std::string::npos` results are `Option Nat` (`none` for `npos`).
* Collaborators outside the two source files (camera, JPEG compressor, file
  system, MIME table, stock replies, request parser) are parameters.
* Effects (files opened, camera calls, socket operations) are recorded as
  lists of events in program order.
-/

namespace http.server

/-! ## Byte strings -/

/-- The bytes of an ASCII string literal. -/
def str (s : String) : List Nat := s.toList.map Char.toNat

/-- The decimal text of `n`, as produced by `std::to_string` on a `std::size_t`. -/
def to_string (n : Nat) : List Nat := (Nat.toDigits 10 n).map Char.toNat

/-- Whether `pat` occurs in `s` starting at its first byte. -/
def starts_with : List Nat → List Nat → Bool
  | _, [] => true
  | [], _ :: _ => false
  | x :: s, y :: pat => x == y && starts_with s pat

/-- The position `std::string::find(pat)` returns; `none` stands for `npos`. -/
def find : List Nat → List Nat → Option Nat
  | [], pat => if starts_with [] pat then some 0 else none
  | x :: s, pat =>
    if starts_with (x :: s) pat then some 0
    else (find s pat).map (fun i => i + 1)

/-- The position `std::string::find_last_of` returns for a one-character set;
`none` stands for `npos`. -/
def find_last_of : List Nat → Nat → Option Nat
  | [], _ => none
  | x :: s, c =>
    match find_last_of s c with
    | some i => some (i + 1)
    | none => if x = c then some 0 else none

/-- The bytes `c_str()` exposes to a C API: everything before the first NUL. -/
def c_str (s : List Nat) : List Nat := s.takeWhile (fun b => b != 0)

/-! ## Percent-decoding (`request_handler::url_decode`) -/

/-- The classic-locale `isspace`, which the stream sentry skips before a number. -/
def is_space (c : Nat) : Bool := c == 32 || (9 ≤ c && c ≤ 13)

/-- The value of a hexadecimal digit, `none` for any other byte. -/
def hex_digit_value (c : Nat) : Option Nat :=
  if 48 ≤ c ∧ c ≤ 57 then some (c - 48)
  else if 65 ≤ c ∧ c ≤ 70 then some (c - 55)
  else if 97 ≤ c ∧ c ≤ 102 then some (c - 87)
  else none

/-- The digit values of the longest leading run of hexadecimal digits. -/
def hex_digits_run : List Nat → List Nat
  | [] => []
  | c :: r =>
    match hex_digit_value c with
    | some d => d :: hex_digits_run r
    | none => []

/-- The number a sequence of hexadecimal digit values denotes. -/
def hex_fold (ds : List Nat) : Nat := ds.foldl (fun a d => 16 * a + d) 0

/-- An optional leading sign of a numeric field: whether it is `-`, and the rest. -/
def skip_sign (s : List Nat) : Bool × List Nat :=
  match s with
  | c :: r => if c = 45 then (true, r) else if c = 43 then (false, r) else (false, s)
  | [] => (false, [])

/-- An optional `0x` or `0X` marker of a hexadecimal field is consumed. -/
def skip_hex_marker (s : List Nat) : List Nat :=
  match s with
  | c :: x :: r => if c = 48 ∧ (x = 120 ∨ x = 88) then r else s
  | _ => s

/-- The effect of `std::istringstream is(s); is >> std::hex >> value` for an
`int value`: `some v` when the extraction succeeds and stores `v`, `none` when
the stream goes bad. Formatted extraction skips leading white space, accepts a
sign and a `0x` marker, then reads hexadecimal digits for as long as there are
any; it succeeds when at least one digit was read and the number fits an
`int`, whatever follows the digits. -/
def istream_extract_hex (s : List Nat) : Option Int :=
  let signed := skip_sign (s.dropWhile is_space)
  let ds := hex_digits_run (skip_hex_marker signed.2)
  if ds = [] then none
  else if signed.1 then
    (if hex_fold ds ≤ 2147483648 then some (- (hex_fold ds : Int)) else none)
  else
    (if hex_fold ds ≤ 2147483647 then some (hex_fold ds : Int) else none)

/-- The byte `static_cast<char>(value)` stores. -/
def to_char (value : Int) : Nat := (value % 256).toNat

/-- The loop of `url_decode` over the rest of the input, `out` being the output
built so far. A `%` needs two more characters (`i + 3 <= in.size()`), which are
handed to the stream extraction; on success the loop skips them (`i += 2`). -/
def url_decode_loop : List Nat → List Nat → Bool × List Nat
  | [], out => (true, out)
  | c :: rest, out =>
    if c = 37 then
      match rest with
      | x :: y :: rest2 =>
        match istream_extract_hex [x, y] with
        | some value => url_decode_loop rest2 (out ++ [to_char value])
        | none => (false, out)
      | _ => (false, out)
    else if c = 43 then url_decode_loop rest (out ++ [32])
    else url_decode_loop rest (out ++ [c])

/-- The function `request_handler::url_decode`: the returned flag and `out`. -/
def url_decode (inp : List Nat) : Bool × List Nat := url_decode_loop inp []

/-! ## Requests and replies -/

/-- Modelled from the spec: the reply status enumeration of `reply.hpp`, which
is not among the source files (ok, bad_request, not_found, internal_error). -/
inductive status_type
  | ok
  | bad_request
  | not_found
  | internal_error
  deriving DecidableEq, Repr

/-- Modelled from the spec: a header is a (name, value) pair (`header.hpp` is
not among the source files). -/
structure header where
  name : List Nat
  value : List Nat
  deriving DecidableEq, Repr

/-- Modelled from the spec: the fields of `reply` (status, ordered headers,
body), declared in `reply.hpp`, which is not among the source files. -/
structure reply where
  status : status_type
  headers : List header
  content : List Nat
  deriving DecidableEq, Repr

/-- Modelled from the spec: the fields of `request` (method, raw uri, version,
ordered headers), declared in `request.hpp`, which is not among the source
files. -/
structure request where
  method : List Nat
  uri : List Nat
  http_version_major : Nat
  http_version_minor : Nat
  headers : List header
  deriving DecidableEq, Repr

/-! ## Collaborators -/

/-- What one `grab()` leaves behind: the flag `grab()` returns, the dimensions
and the image buffer pointer (`none` for `nullptr`). -/
structure camera_frame where
  grab_ok : Bool
  width : Nat
  height : Nat
  data : Option (List Nat)

/-- A camera: whether `open(true)` succeeds, and what the k-th `grab()` yields. -/
structure camera where
  open_ok : Bool
  frames : Nat → camera_frame

/-- The TurboJPEG library: whether `tjInitCompress` yields a compressor, and
the bytes `tjCompress2` produces for an image, width, height and quality
(`none` when it reports an error). -/
structure turbojpeg where
  init_ok : Bool
  compress : List Nat → Nat → Nat → Nat → Option (List Nat)

/-- The collaborators of the request handler: the document root, the stock
replies (`reply::stock_reply`), the MIME table (`mime_types::extension_to_type`),
the file system as seen through `std::ifstream` (`none` when the stream fails
to open), the camera and the JPEG library. -/
structure collaborators where
  doc_root_ : List Nat
  stock_reply : status_type → reply
  extension_to_type : List Nat → List Nat
  ifstream_open : List Nat → Option (List Nat)
  cam : camera
  tj : turbojpeg

/-- The function `to_jpg_image`: the encoded image, or `none` when it throws. -/
def to_jpg_image (tj : turbojpeg) (img : List Nat) (width height quality : Nat) :
    Option (List Nat) :=
  if tj.init_ok then tj.compress img width height quality else none

/-! ## The request handler (`request_handler::handle_request`) -/

/-- The collaborator calls `handle_request` makes, in program order. -/
inductive effect
  | open_file (path : List Nat)
  | cam_open (ok : Bool)
  | cam_grab (ok : Bool)
  | compress (width height quality : Nat)
  | mime_lookup (extension : List Nat)
  deriving DecidableEq, Repr

/-- What a call of `handle_request` leaves: the reply object, whether an
exception left the function, and the collaborator calls made. -/
structure handled where
  rep : reply
  thrown : Bool
  effects : List effect
  deriving DecidableEq, Repr

/-- The loop reading the file in blocks of 512 bytes and appending each block
to the reply body, until a read yields nothing. -/
def read_loop (remaining : List Nat) (content : List Nat) : List Nat :=
  if 0 < (remaining.take 512).length then
    read_loop (remaining.drop 512) (content ++ remaining.take 512)
  else content
termination_by remaining.length
decreasing_by
  simp only [List.length_drop]
  have h : 0 < remaining.length := by
    rcases remaining with _ | ⟨a, l⟩
    · simp at *
    · simp
  omega

/-- The semantics of `std::vector<header>::resize(n)`. -/
def resize (hs : List header) (n : Nat) : List header :=
  hs.take n ++ List.replicate (n - hs.length) ⟨[], []⟩

/-- The last five statements of `handle_request`: two headers, the length of
the body and the MIME type of the extension. -/
def fill_headers (mime : List Nat → List Nat) (rep : reply) (extension : List Nat) : reply :=
  { rep with
    headers := ((resize rep.headers 2).set 0 ⟨str "Content-Length", to_string rep.content.length⟩).set 1
      ⟨str "Content-Type", mime extension⟩ }

/-- The path after the directory rule: `index.html` is appended to a path
whose last byte is a slash. -/
def add_index (request_path : List Nat) : List Nat :=
  if request_path.getLast? = some 47 then request_path ++ str "index.html" else request_path

/-- The extension `handle_request` determines: what follows the last dot, when
there is one (`last_dot_pos != npos`) and it lies after the last slash
(`last_dot_pos > last_slash_pos`, false against `npos`, the largest value). -/
def extension_of (request_path : List Nat) : List Nat :=
  match find_last_of request_path 46, find_last_of request_path 47 with
  | some last_dot_pos, some last_slash_pos =>
    if last_dot_pos > last_slash_pos then request_path.drop (last_dot_pos + 1) else []
  | _, _ => []

/-- The test guarding the request path: empty, not absolute, or containing
two dots in a row. -/
def path_rejected (request_path : List Nat) : Bool :=
  request_path.isEmpty || request_path.head? != some 47 || (find request_path (str "..")).isSome

/-- The function `request_handler::handle_request`, `rep` being the reply
object the caller passes by reference. Console output is not modelled. -/
def handle_request (env : collaborators) (req : request) (rep : reply) : handled :=
  let decoded := url_decode req.uri
  if !decoded.1 then ⟨env.stock_reply .bad_request, false, []⟩
  else if path_rejected decoded.2 then ⟨env.stock_reply .bad_request, false, []⟩
  else
    let request_path := add_index decoded.2
    let extension := extension_of request_path
    if request_path = str "/live" then
      if !env.cam.open_ok then ⟨rep, true, [.cam_open false]⟩
      else
        let frame := env.cam.frames 0
        match frame.data with
        | none => ⟨rep, true, [.cam_open true, .cam_grab frame.grab_ok]⟩
        | some data =>
          match to_jpg_image env.tj data frame.width frame.height 85 with
          | none =>
            ⟨rep, true, [.cam_open true, .cam_grab frame.grab_ok,
              .compress frame.width frame.height 85]⟩
          | some img =>
            ⟨fill_headers env.extension_to_type { rep with content := img } (str "jpg"), false,
              [.cam_open true, .cam_grab frame.grab_ok, .compress frame.width frame.height 85,
                .mime_lookup (str "jpg")]⟩
    else
      let full_path := env.doc_root_ ++ request_path
      match env.ifstream_open (c_str full_path) with
      | none => ⟨env.stock_reply .not_found, false, [.open_file (c_str full_path)]⟩
      | some file =>
        ⟨fill_headers env.extension_to_type
            { rep with status := .ok, content := read_loop file rep.content } extension, false,
          [.open_file (c_str full_path), .mime_lookup extension]⟩

/-! ## The connection (`connection.cpp`) -/

/-- The verdict of `request_parser::parse`. -/
inductive result_type
  | good
  | bad
  | indeterminate
  deriving DecidableEq, Repr

/-- The error code a completion handler receives, as far as the handlers
distinguish: none, `boost::asio::error::operation_aborted`, or another error. -/
inductive error_code
  | success
  | operation_aborted
  | failure (code : Nat)
  deriving DecidableEq, Repr

/-- An asynchronous operation the connection has issued and that has not
completed. -/
inductive operation
  | read
  | write
  deriving DecidableEq, Repr

/-- What the connection does to the outside, in program order: asynchronous
operations it issues, the call of the request handler, the blocking writes of
the streaming branch and whether they succeeded, camera calls and the flag they
returned, the pause between frames, the socket shutdown, and the call of
`connection_manager::stop`. -/
inductive io_event
  | async_read_some
  | async_write (rep : reply)
  | handle_request
  | write_reply (rep : reply) (ok : Bool)
  | cam_open (ok : Bool)
  | cam_grab (ok : Bool)
  | write_frame (content : List Nat) (ok : Bool)
  | sleep
  | shutdown
  | manager_stop
  deriving DecidableEq, Repr

/-- The collaborators of a connection, `σ` being the state of the request
parser: the parser (verdict, new parser state, request as built so far), the
request handler as `connection.cpp` calls it (the streaming flag and the reply
it leaves, `none` when it throws), the stock replies, the camera, the JPEG
library, and whether the k-th blocking write on the socket succeeds (0 for the
reply, k + 1 for frame k). -/
structure server_env (σ : Type) where
  parse : σ → request → List Nat → result_type × σ × request
  handle_request : request → reply → Option (Bool × reply)
  stock_reply : status_type → reply
  cam : camera
  tj : turbojpeg
  write_ok : Nat → Bool

/-- The members of a connection the handlers use, with the asynchronous
operations outstanding and the events so far. -/
structure connection (σ : Type) where
  request_parser_ : σ
  request_ : request
  reply_ : reply
  outstanding : List operation
  trace : List io_event

/-- The multipart frame the streaming loop builds around an encoded image. -/
def mjpeg_frame (img : List Nat) : List Nat :=
  str "--mjpeg\r\n" ++
  str "Content-Type:image/jpeg\r\n" ++
  str "Content-Length:" ++ to_string img.length ++ img ++ str "\r\n" ++
  str "\r\n" ++ img ++ str "\r\n"

/-- The body of `for(;;)` from iteration `k` on, observed for at most `fuel`
iterations: the events, and whether an exception ended the loop. -/
def frame_loop {σ : Type} (env : server_env σ) : Nat → Nat → List io_event × Bool
  | 0, _ => ([], false)
  | fuel + 1, k =>
    let frame := env.cam.frames k
    match frame.data with
    | none => ([.cam_grab frame.grab_ok], true)
    | some data =>
      match to_jpg_image env.tj data frame.width frame.height 75 with
      | none => ([.cam_grab frame.grab_ok], true)
      | some img =>
        if env.write_ok (k + 1) then
          (.cam_grab frame.grab_ok :: .write_frame (mjpeg_frame img) true :: .sleep ::
            (frame_loop env fuel (k + 1)).1, (frame_loop env fuel (k + 1)).2)
        else ([.cam_grab frame.grab_ok, .write_frame (mjpeg_frame img) false], true)

/-- The `try` block of the streaming branch with its `catch`: the reply is
written, the camera opened, the frame loop run; any exception is caught and
answered by one call of `connection_manager::stop`. The flag tells whether the
handler returned within the observed iterations. -/
def stream {σ : Type} (env : server_env σ) (fuel : Nat) (rep : reply) : List io_event × Bool :=
  if !env.write_ok 0 then ([.write_reply rep false, .manager_stop], true)
  else if !env.cam.open_ok then
    ([.write_reply rep true, .cam_open false, .manager_stop], true)
  else
    (.write_reply rep true :: .cam_open true ::
      ((frame_loop env fuel 0).1 ++ (if (frame_loop env fuel 0).2 then [.manager_stop] else [])),
      (frame_loop env fuel 0).2)

/-- The function `connection::do_read`: one `async_read_some` is issued. -/
def do_read {σ : Type} (c : connection σ) : connection σ :=
  { c with outstanding := c.outstanding ++ [.read], trace := c.trace ++ [.async_read_some] }

/-- The function `connection::do_write`: one `async_write` of the reply is issued. -/
def do_write {σ : Type} (c : connection σ) : connection σ :=
  { c with outstanding := c.outstanding ++ [.write], trace := c.trace ++ [.async_write c.reply_] }

/-- The function `connection::start`. -/
def start {σ : Type} (c : connection σ) : connection σ := do_read c

/-- The completion handler of `do_read`, for the error code and the bytes
received; `fuel` bounds the iterations of the frame loop that are observed. -/
def on_read {σ : Type} (env : server_env σ) (ec : error_code) (bytes : List Nat) (fuel : Nat)
    (c : connection σ) : connection σ :=
  if ec = .success then
    let parsed := env.parse c.request_parser_ c.request_ bytes
    let c1 := { c with request_parser_ := parsed.2.1, request_ := parsed.2.2 }
    match parsed.1 with
    | .good =>
      match env.handle_request c1.request_ c1.reply_ with
      | none => { c1 with trace := c1.trace ++ [.handle_request] }
      | some (is_mjpeg, rep) =>
        let c2 := { c1 with reply_ := rep, trace := c1.trace ++ [.handle_request] }
        if !is_mjpeg then do_write c2
        else { c2 with trace := c2.trace ++ (stream env fuel rep).1 }
    | .bad => do_write { c1 with reply_ := env.stock_reply .bad_request }
    | .indeterminate => do_read c1
  else if ec ≠ .operation_aborted then { c with trace := c.trace ++ [.manager_stop] }
  else c

/-- The completion handler of `do_write`. -/
def on_write {σ : Type} (ec : error_code) (c : connection σ) : connection σ :=
  let c1 := if ec = .success then { c with trace := c.trace ++ [.shutdown] } else c
  if ec ≠ .operation_aborted then { c1 with trace := c1.trace ++ [.manager_stop] } else c1

/-- A completion the reactor delivers: which operation completed, with which
error code and received bytes, and for how many iterations a frame loop it
starts is observed. -/
structure completion where
  op : operation
  ec : error_code
  bytes : List Nat
  fuel : Nat

/-- The reactor delivers a completion: only an outstanding operation can
complete; it is then no longer outstanding and its handler runs. -/
def deliver {σ : Type} (env : server_env σ) (c : connection σ) (d : completion) : connection σ :=
  if d.op ∈ c.outstanding then
    match d.op with
    | .read => on_read env d.ec d.bytes d.fuel { c with outstanding := c.outstanding.erase d.op }
    | .write => on_write d.ec { c with outstanding := c.outstanding.erase d.op }
  else c

/-- A connection as constructed: nothing outstanding, nothing done. -/
def fresh {σ : Type} (parser : σ) (req : request) (rep : reply) : connection σ :=
  { request_parser_ := parser, request_ := req, reply_ := rep, outstanding := [], trace := [] }

/-- A run: the connection is started, then completions are delivered in order. -/
def run {σ : Type} (env : server_env σ) (c : connection σ) (ds : List completion) : connection σ :=
  ds.foldl (deliver env) (start c)

/-! ## Specification vocabulary -/

/-- A token of a percent-encoded text: one plain byte, or a `%` with the two
bytes after it. -/
inductive token
  | plain (b : Nat)
  | escape (x y : Nat)
  deriving DecidableEq, Repr

/-- A plain token is not a `%`; the two bytes of an escape are hexadecimal digits. -/
def token.well_formed : token → Bool
  | .plain b => b != 37
  | .escape x y => (hex_digit_value x).isSome && (hex_digit_value y).isSome

/-- The text of a token. -/
def token.text : token → List Nat
  | .plain b => [b]
  | .escape x y => [37, x, y]

/-- The byte a token stands for: `16 * hex x + hex y` for an escape, a space
for `+`, the byte itself otherwise. -/
def token.decoded : token → Nat
  | .plain b => if b = 43 then 32 else b
  | .escape x y => 16 * (hex_digit_value x).getD 0 + (hex_digit_value y).getD 0

/-- The text of a sequence of tokens. -/
def tokens_text : List token → List Nat
  | [] => []
  | t :: ts => t.text ++ tokens_text ts

/-- The upper-case hexadecimal digit of a value below 16. -/
def hex_char (d : Nat) : Nat := if d < 10 then 48 + d else 55 + d

/-- The full percent-encoding of a byte string: every byte becomes `%XY`. -/
def percent_encode : List Nat → List Nat
  | [] => []
  | b :: bs => 37 :: hex_char (b / 16) :: hex_char (b % 16) :: percent_encode bs

/-- The decimal representation of `n`: its base-10 digits, most significant
first, as ASCII digits; a single `0` for zero. -/
def decimal (n : Nat) : List Nat :=
  if n = 0 then [48] else (Nat.digits 10 n).reverse.map (fun d => d + 48)

/-- The relation "e is the extension of path": e is what follows the last dot
of the path when that dot lies after the last slash (no dot and no slash
follows it), and e is empty when the path has no such dot. -/
def is_extension (path e : List Nat) : Prop :=
  (∃ pre, path = pre ++ 46 :: e ∧ 46 ∉ e ∧ 47 ∉ e)
    ∨ (e = [] ∧ ∀ pre rest, path = pre ++ 46 :: rest → 46 ∈ rest ∨ 47 ∈ rest)

/-- The condition "the path passes the path guard": not empty, starting with a
slash, without two dots in a row. -/
def passes_guard (path : List Nat) : Prop :=
  path ≠ [] ∧ path.head? = some 47 ∧ ¬ (str ".." <:+: path)

/-- A reply object as default-constructed: no headers, no body, and the status
its storage happens to hold, which no constructor sets. -/
def blank_reply (status : status_type) : reply := ⟨status, [], []⟩

/-- A request for a uri. -/
def get (uri : String) : request := ⟨str "GET", str uri, 1, 1, []⟩

/-- A sample environment: document root `www` holding `index.html` and
`a.b/index.html`; a camera delivering a 2x1 frame; a compressor that succeeds. -/
def sample_env : collaborators where
  doc_root_ := str "www"
  stock_reply := fun st => ⟨st, [], str "stock"⟩
  extension_to_type := fun e =>
    if e = str "html" then str "text/html"
    else if e = str "jpg" then str "image/jpeg"
    else str "text/plain"
  ifstream_open := fun path =>
    if path = str "www/index.html" then some (str "<h1>hi</h1>")
    else if path = str "www/a.b/index.html" then some (str "x")
    else none
  cam := ⟨true, fun _ => ⟨true, 2, 1, some [1, 2, 3, 4, 5, 6]⟩⟩
  tj := ⟨true, fun img _ _ quality => some (255 :: 216 :: quality :: img)⟩

/-- The condition "frame k fails": no image data is returned, the encoder
fails, or the write of the frame fails. -/
def frame_fails {σ : Type} (env : server_env σ) (k : Nat) : Bool :=
  match (env.cam.frames k).data with
  | none => true
  | some data =>
    match to_jpg_image env.tj data (env.cam.frames k).width (env.cam.frames k).height 75 with
    | none => true
    | some _ => !env.write_ok (k + 1)

/-- Whether an event is a frame written in full. -/
def is_frame_written : io_event → Bool
  | .write_frame _ ok => ok
  | _ => false

/-- The number of frames written in full. -/
def frames_written (trace : List io_event) : Nat := (trace.filter is_frame_written).length

/-- The number of calls of `connection_manager::stop`. -/
def stops (trace : List io_event) : Nat := trace.count .manager_stop

/-- A sample server. Its parser counts the bytes it has seen, finds `bad` a
buffer starting with a NUL, `good` a buffer ending in a line feed (the uri is
then the buffer without it) and `indeterminate` anything else; its handler
asks for streaming on the uri `/stream`; its camera delivers two frames and
then a null buffer; every write succeeds. -/
def sample_server : server_env Nat where
  parse := fun seen req bytes =>
    if bytes.head? = some 0 then (.bad, seen + bytes.length, req)
    else if bytes.getLast? = some 10 then
      (.good, seen + bytes.length, { req with uri := bytes.dropLast })
    else (.indeterminate, seen + bytes.length, { req with method := req.method ++ bytes })
  handle_request := fun req rep =>
    some (decide (req.uri = str "/stream"), { rep with status := .ok, content := req.uri })
  stock_reply := fun st => ⟨st, [], str "stock"⟩
  cam := ⟨true, fun k => if k < 2 then ⟨true, 2, 1, some [1, 2, 3, 4, 5, 6]⟩ else ⟨true, 0, 0, none⟩⟩
  tj := ⟨true, fun img _ _ quality => some (255 :: 216 :: quality :: img)⟩
  write_ok := fun _ => true

/-- The sample server with a camera that cannot be opened. -/
def closed_camera_server : server_env Nat :=
  { sample_server with cam := ⟨false, fun _ => ⟨false, 0, 0, none⟩⟩ }

/-- The sample server with a camera whose first `grab()` returns false while
the image buffer pointer is not null, and whose second leaves a null buffer. -/
def stale_camera_server : server_env Nat :=
  { sample_server with
    cam := ⟨true, fun k => if k = 0 then ⟨false, 2, 1, some [1, 2, 3, 4, 5, 6]⟩ else ⟨false, 0, 0, none⟩⟩ }

/-- A connection of the sample server as constructed. -/
def sample_connection : connection Nat := fresh 0 (get "") (blank_reply .internal_error)

/-- The discipline of a connection: either `connection_manager::stop` has not
been called and at most one asynchronous operation is outstanding, or it has
been called once, as the last thing done, and nothing is outstanding. -/
def disciplined {σ : Type} (c : connection σ) : Prop :=
  (io_event.manager_stop ∉ c.trace ∧ c.outstanding.length ≤ 1)
    ∨ (c.outstanding = [] ∧ ∃ before, c.trace = before ++ [.manager_stop]
        ∧ io_event.manager_stop ∉ before)

/-! # Theorems -/

/-! ## Percent-decoding -/

theorem hex_digit_value_lt {c d : Nat} (h : hex_digit_value c = some d) : d < 16 := by
  unfold hex_digit_value at h
  split_ifs at h <;> simp at h <;> omega

theorem hex_digit_value_range {c d : Nat} (h : hex_digit_value c = some d) :
    48 ≤ c ∧ c ≤ 102 ∧ c ≠ 88 := by
  unfold hex_digit_value at h
  split_ifs at h <;> omega

theorem istream_extract_hex_pair {x y a b : Nat} (hx : hex_digit_value x = some a)
    (hy : hex_digit_value y = some b) :
    istream_extract_hex [x, y] = some ((16 * a + b : Nat) : Int) := by
  have rx := hex_digit_value_range hx
  have ry := hex_digit_value_range hy
  have la := hex_digit_value_lt hx
  have lb := hex_digit_value_lt hy
  have hs : is_space x = false := by
    simp [is_space]; omega
  have h1 : List.dropWhile is_space [x, y] = [x, y] := by
    simp [List.dropWhile, hs]
  have h2 : skip_sign [x, y] = (false, [x, y]) := by
    simp only [skip_sign]
    rw [if_neg (by omega), if_neg (by omega)]
  have h3 : skip_hex_marker [x, y] = [x, y] := by
    simp only [skip_hex_marker]
    rw [if_neg (by omega)]
  have h4 : hex_digits_run [x, y] = [a, b] := by
    simp [hex_digits_run, hx, hy]
  have h5 : hex_fold [a, b] = 16 * a + b := by
    simp [hex_fold]
  unfold istream_extract_hex
  simp only [h1, h2, h3, h4, h5]
  simp
  omega

theorem to_char_small {n : Nat} (h : n < 256) : to_char (n : Int) = n := by
  unfold to_char
  omega

theorem url_decode_loop_plain (c : Nat) (rest out : List Nat) (h : c ≠ 37) (h2 : c ≠ 43) :
    url_decode_loop (c :: rest) out = url_decode_loop rest (out ++ [c]) := by
  conv_lhs => unfold url_decode_loop
  simp only [if_neg h, if_neg h2]

theorem url_decode_loop_plus (rest out : List Nat) :
    url_decode_loop (43 :: rest) out = url_decode_loop rest (out ++ [32]) := by
  conv_lhs => unfold url_decode_loop
  simp

theorem url_decode_loop_escape (x y v : Nat) (rest out : List Nat)
    (h : istream_extract_hex [x, y] = some (v : Int)) :
    url_decode_loop (37 :: x :: y :: rest) out = url_decode_loop rest (out ++ [to_char v]) := by
  conv_lhs => unfold url_decode_loop
  simp only [if_true, h]

theorem url_decode_loop_tokens (ts : List token) (h : ∀ t ∈ ts, t.well_formed = true)
    (rest out : List Nat) :
    url_decode_loop (tokens_text ts ++ rest) out
      = url_decode_loop rest (out ++ ts.map token.decoded) := by
  induction ts generalizing out with
  | nil => simp [tokens_text]
  | cons t ts ih =>
    have ht := h t (List.mem_cons_self _ _)
    have hts : ∀ u ∈ ts, u.well_formed = true := fun u hu => h u (List.mem_cons_of_mem _ hu)
    cases t with
    | plain b =>
      have hb : b ≠ 37 := by simpa [token.well_formed] using ht
      by_cases h43 : b = 43
      · subst h43
        simp only [tokens_text, token.text, List.cons_append, List.nil_append,
          url_decode_loop_plus, ih hts, token.decoded, List.map_cons, if_true]
        simp
      · simp only [tokens_text, token.text, List.cons_append, List.nil_append,
          url_decode_loop_plain b _ _ hb h43, ih hts, token.decoded, List.map_cons, if_neg h43]
        simp
    | escape x y =>
      simp only [token.well_formed, Bool.and_eq_true, Option.isSome_iff_exists] at ht
      obtain ⟨⟨a, ha⟩, ⟨b, hb⟩⟩ := ht
      have la := hex_digit_value_lt ha
      have lb := hex_digit_value_lt hb
      simp only [tokens_text, token.text, List.cons_append, List.nil_append,
        url_decode_loop_escape x y (16 * a + b) _ _ (istream_extract_hex_pair ha hb),
        token.decoded, ha, hb, Option.getD_some, List.map_cons]
      rw [to_char_small (by omega), ih hts]
      simp

theorem percent_encode_tokens (bs : List Nat) (h : ∀ b ∈ bs, b < 256) :
    ∃ ts : List token, (∀ t ∈ ts, t.well_formed = true) ∧ tokens_text ts = percent_encode bs
      ∧ ts.map token.decoded = bs := by
  induction bs with
  | nil => exact ⟨[], by simp, rfl, rfl⟩
  | cons b bs ih =>
    obtain ⟨ts, h1, h2, h3⟩ := ih (fun c hc => h c (List.mem_cons_of_mem _ hc))
    have hb := h b (List.mem_cons_self _ _)
    have e1 : hex_digit_value (hex_char (b / 16)) = some (b / 16) := by
      unfold hex_char hex_digit_value
      split_ifs <;> first | omega | (congr 1; omega)
    have e2 : hex_digit_value (hex_char (b % 16)) = some (b % 16) := by
      unfold hex_char hex_digit_value
      split_ifs <;> first | omega | (congr 1; omega)
    refine ⟨.escape (hex_char (b / 16)) (hex_char (b % 16)) :: ts, ?_, ?_, ?_⟩
    · intro t ht
      rcases List.mem_cons.mp ht with rfl | ht
      · simp [token.well_formed, e1, e2]
      · exact h1 t ht
    · simp [tokens_text, token.text, percent_encode, h2]
    · simp only [List.map_cons, token.decoded, e1, e2, Option.getD_some, h3]
      congr 1
      omega

/-- C3: on a concatenation of well-formed tokens url_decode returns true and
the token-wise decoding, and decoding the full percent-encoding of a byte
string gives the byte string back. -/
theorem url_decode_tokenwise (ts : List token) (h : ∀ t ∈ ts, t.well_formed = true)
    (bs : List Nat) (hb : ∀ b ∈ bs, b < 256) :
    url_decode (tokens_text ts) = (true, ts.map token.decoded)
      ∧ url_decode (percent_encode bs) = (true, bs) := by
  constructor
  · have := url_decode_loop_tokens ts h [] []
    simpa [url_decode, url_decode_loop] using this
  · obtain ⟨us, h1, h2, h3⟩ := percent_encode_tokens bs hb
    have := url_decode_loop_tokens us h1 [] []
    rw [h2, h3] at this
    simpa [url_decode, url_decode_loop] using this

theorem url_decode_tokenwise_witness :
    url_decode (str "/a+b%2F%7e") = (true, str "/a b/~")
      ∧ url_decode (percent_encode [0, 37, 255]) = (true, [0, 37, 255]) :=
  url_decode_tokenwise
    [.plain 47, .plain 97, .plain 43, .plain 98, .escape 50 70, .escape 55 101]
    (by decide) [0, 37, 255] (by decide)

/-! ## Strings -/

theorem starts_with_iff (s pat : List Nat) : starts_with s pat = true ↔ pat <+: s := by
  induction pat generalizing s with
  | nil => simp [starts_with]
  | cons y pat ih =>
    cases s with
    | nil => simp [starts_with]
    | cons x s =>
      simp only [starts_with, Bool.and_eq_true, beq_iff_eq, ih, List.cons_prefix_cons]
      constructor
      · rintro ⟨h1, h2⟩; exact ⟨h1.symm, h2⟩
      · rintro ⟨h1, h2⟩; exact ⟨h1.symm, h2⟩

theorem find_isSome_iff (s pat : List Nat) : (find s pat).isSome = true ↔ pat <:+: s := by
  induction s with
  | nil =>
    cases pat with
    | nil => simp [find, starts_with]
    | cons y pat => simp [find, starts_with]
  | cons x s ih =>
    rw [List.infix_cons_iff, ← ih, ← starts_with_iff]
    have e : find (x :: s) pat
        = if starts_with (x :: s) pat then some 0 else (find s pat).map (fun i => i + 1) := rfl
    rw [e]
    by_cases h : starts_with (x :: s) pat = true
    · simp [h]
    · simp [h]

theorem path_rejected_iff (p : List Nat) :
    path_rejected p = true ↔ (p = [] ∨ p.head? ≠ some 47 ∨ str ".." <:+: p) := by
  unfold path_rejected
  simp only [Bool.or_eq_true, find_isSome_iff, List.isEmpty_iff, bne_iff_ne, or_assoc]

theorem path_rejected_of_passes {p : List Nat} (h : passes_guard p) : path_rejected p = false := by
  rcases h with ⟨h1, h2, h3⟩
  cases hr : path_rejected p with
  | false => rfl
  | true =>
    rcases (path_rejected_iff p).mp hr with h | h | h
    · exact absurd h h1
    · exact absurd h2 h
    · exact absurd h h3

/-- C1: a request whose uri decodes to a path that is empty, does not begin
with a slash or contains two dots in a row gets the stock bad_request reply,
and handle_request returns without any collaborator call (no file opened, no
camera), whatever the file system holds. -/
theorem handle_request_rejects_unsafe_path (env : collaborators) (req : request) (rep : reply)
    (p : List Nat) (hd : url_decode req.uri = (true, p))
    (hp : p = [] ∨ p.head? ≠ some 47 ∨ str ".." <:+: p) :
    handle_request env req rep = ⟨env.stock_reply .bad_request, false, []⟩ := by
  have hr := (path_rejected_iff p).mpr hp
  unfold handle_request
  simp [hd, hr]

theorem handle_request_rejects_unsafe_path_witness :
    url_decode (get "/%2e%2e/secret").uri = (true, str "/../secret")
      ∧ handle_request sample_env (get "/%2e%2e/secret") (blank_reply .ok)
          = ⟨sample_env.stock_reply .bad_request, false, []⟩ :=
  ⟨by decide, handle_request_rejects_unsafe_path sample_env (get "/%2e%2e/secret")
    (blank_reply .ok) (str "/../secret") (by decide)
    (Or.inr (Or.inr ⟨[47], str "/secret", by decide⟩))⟩

/-- C2: url_decode rejects the escapes the claim lists (a lone percent sign, a
percent sign before a non-digit, a percent sign with one character left), but
it accepts a percent sign followed by one hexadecimal digit and a byte that is
not one: the uri /%1G decodes to the path of bytes 47, 1 and handle_request
goes on to open a file instead of answering bad_request. -/
theorem url_decode_accepts_half_escape :
    (url_decode (str "%")).1 = false ∧ (url_decode (str "%G0")).1 = false
      ∧ (url_decode (str "x%A")).1 = false
      ∧ url_decode (str "/%1G") = (true, [47, 1])
      ∧ handle_request sample_env (get "/%1G") (blank_reply .ok)
          = ⟨sample_env.stock_reply .not_found, false, [.open_file (str "www/" ++ [1])]⟩
      ∧ (handle_request sample_env (get "/%1G") (blank_reply .ok)).rep
          ≠ sample_env.stock_reply .bad_request := by
  decide

/-! ## Decimal text -/

theorem toDigitsCore_eq (fuel : Nat) : ∀ (n : Nat) (ds : List Char), n < fuel →
    Nat.toDigitsCore 10 fuel n ds
      = (if n = 0 then [Nat.digitChar 0] else (Nat.digits 10 n).reverse.map Nat.digitChar) ++ ds := by
  induction fuel with
  | zero => intro n ds h; omega
  | succ fuel ih =>
    intro n ds h
    simp only [Nat.toDigitsCore]
    by_cases h0 : n / 10 = 0
    · have hlt : n < 10 := by omega
      rw [if_pos h0]
      by_cases hn : n = 0
      · subst hn; simp
      · rw [if_neg hn, Nat.digits_of_lt 10 n hn hlt, Nat.mod_eq_of_lt hlt]
        simp
    · have hn : n ≠ 0 := by omega
      rw [if_neg h0, ih (n / 10) _ (by omega), if_neg h0, if_neg hn]
      have hd : Nat.digits 10 n = (n % 10) :: Nat.digits 10 (n / 10) :=
        Nat.digits_def' (by decide) (by omega)
      rw [hd]
      simp

theorem digitChar_toNat {d : Nat} (h : d < 10) : (Nat.digitChar d).toNat = d + 48 := by
  interval_cases d <;> rfl

theorem to_string_eq_decimal (n : Nat) : to_string n = decimal n := by
  unfold to_string decimal Nat.toDigits
  rw [toDigitsCore_eq (n + 1) n [] (by omega)]
  by_cases hn : n = 0
  · subst hn; rfl
  · rw [if_neg hn, if_neg hn, List.append_nil, List.map_map]
    apply List.map_congr_left
    intro d hd
    have : d < 10 := Nat.digits_lt_base (by decide) (List.mem_reverse.mp hd)
    simpa using digitChar_toNat this

theorem decimal_length (n : Nat) : (decimal n).length = Nat.log 10 n + 1 := by
  unfold decimal
  by_cases hn : n = 0
  · subst hn; simp
  · rw [if_neg hn, List.length_map, List.length_reverse, Nat.digits_len 10 n (by decide) hn]

/-! ## The reply of `handle_request` -/

theorem read_loop_eq_aux : ∀ (n : Nat) (file content : List Nat), file.length ≤ n →
    read_loop file content = content ++ file := by
  intro n
  induction n with
  | zero =>
    intro file content h
    have hf : file = [] := List.length_eq_zero.mp (by omega)
    subst hf
    rw [read_loop]
    simp
  | succ n ih =>
    intro file content h
    rw [read_loop]
    by_cases hf : file = []
    · subst hf; simp
    · have hlen : 0 < file.length := List.length_pos.mpr hf
      have hpos : 0 < (file.take 512).length := by
        rw [List.length_take]; omega
      rw [if_pos hpos, ih _ _ (by rw [List.length_drop]; omega), List.append_assoc,
        List.take_append_drop]

theorem read_loop_eq (file content : List Nat) : read_loop file content = content ++ file :=
  read_loop_eq_aux file.length file content (le_refl _)

theorem resize_two (hs : List header) :
    ∃ a b, resize hs 2 = [a, b] := by
  rcases hs with _ | ⟨a, _ | ⟨b, t⟩⟩
  · exact ⟨_, _, rfl⟩
  · exact ⟨_, _, rfl⟩
  · exact ⟨a, b, by simp [resize]⟩

theorem fill_headers_eq (mime : List Nat → List Nat) (rep : reply) (extension : List Nat) :
    fill_headers mime rep extension
      = ⟨rep.status, [⟨str "Content-Length", to_string rep.content.length⟩,
          ⟨str "Content-Type", mime extension⟩], rep.content⟩ := by
  obtain ⟨a, b, h⟩ := resize_two rep.headers
  unfold fill_headers
  rw [h]
  rfl

theorem add_index_ne_live {p : List Nat} (h : p ≠ str "/live") : add_index p ≠ str "/live" := by
  unfold add_index
  split_ifs with hl
  · intro he
    have h1 := congrArg List.getLast? he
    have e1 : (str "index.html").getLast? = some 108 := by decide
    have e2 : (str "/live").getLast? = some 101 := by decide
    rw [List.getLast?_append, e1, e2] at h1
    simp at h1
  · exact h

theorem handle_request_file (env : collaborators) (req : request) (rep : reply)
    (p file : List Nat) (hd : url_decode req.uri = (true, p)) (hg : passes_guard p)
    (hl : p ≠ str "/live")
    (hf : env.ifstream_open (c_str (env.doc_root_ ++ add_index p)) = some file) :
    handle_request env req rep
      = ⟨⟨.ok, [⟨str "Content-Length", to_string (rep.content ++ file).length⟩,
            ⟨str "Content-Type", env.extension_to_type (extension_of (add_index p))⟩],
          rep.content ++ file⟩, false,
          [.open_file (c_str (env.doc_root_ ++ add_index p)),
            .mime_lookup (extension_of (add_index p))]⟩ := by
  have hr := path_rejected_of_passes hg
  have hl2 := add_index_ne_live hl
  unfold handle_request
  simp only [hd, hr, hl2, hf, fill_headers_eq, read_loop_eq]
  simp

theorem handle_request_missing (env : collaborators) (req : request) (rep : reply)
    (p : List Nat) (hd : url_decode req.uri = (true, p)) (hg : passes_guard p)
    (hl : p ≠ str "/live")
    (hf : env.ifstream_open (c_str (env.doc_root_ ++ add_index p)) = none) :
    handle_request env req rep
      = ⟨env.stock_reply .not_found, false,
          [.open_file (c_str (env.doc_root_ ++ add_index p))]⟩ := by
  have hr := path_rejected_of_passes hg
  have hl2 := add_index_ne_live hl
  unfold handle_request
  simp only [hd, hr, hl2, hf]
  simp

/-- C4: when the decoded path passes the guard, is not /live and the file the
handler opens (document root followed by the path, index.html appended to a
path ending in a slash) exists with contents file, the reply handed in with an
empty body, as the connection does, comes back with status ok, the file as
body, and a Content-Length header holding the decimal representation of the
file size. -/
theorem handle_request_serves_file (env : collaborators) (req : request) (rep : reply)
    (p file : List Nat) (hd : url_decode req.uri = (true, p)) (hg : passes_guard p)
    (hl : p ≠ str "/live")
    (hf : env.ifstream_open (c_str (env.doc_root_ ++ add_index p)) = some file)
    (hr : rep.content = []) :
    (handle_request env req rep).thrown = false
      ∧ (handle_request env req rep).rep.status = .ok
      ∧ (handle_request env req rep).rep.content = file
      ∧ (⟨str "Content-Length", decimal file.length⟩ : header)
          ∈ (handle_request env req rep).rep.headers
      ∧ ((handle_request env req rep).rep.headers.filter
          (fun h => h.name = str "Content-Length")).length = 1 := by
  rw [handle_request_file env req rep p file hd hg hl hf, hr, ← to_string_eq_decimal]
  refine ⟨rfl, rfl, rfl, ?_, ?_⟩
  · simp
  · have hne : str "Content-Type" ≠ str "Content-Length" := by decide
    simp [List.filter, hne]

theorem handle_request_serves_file_witness :
    url_decode (get "/").uri = (true, str "/") ∧ passes_guard (str "/")
      ∧ (handle_request sample_env (get "/") (blank_reply .not_found)).thrown = false
      ∧ (handle_request sample_env (get "/") (blank_reply .not_found)).rep.status = .ok
      ∧ (handle_request sample_env (get "/") (blank_reply .not_found)).rep.content
          = str "<h1>hi</h1>"
      ∧ (⟨str "Content-Length", decimal (str "<h1>hi</h1>").length⟩ : header)
          ∈ (handle_request sample_env (get "/") (blank_reply .not_found)).rep.headers
      ∧ ((handle_request sample_env (get "/") (blank_reply .not_found)).rep.headers.filter
          (fun h => h.name = str "Content-Length")).length = 1 :=
  have hg : passes_guard (str "/") := ⟨by decide, by decide, by
    rw [← find_isSome_iff]; decide⟩
  ⟨by decide, hg, handle_request_serves_file sample_env (get "/") (blank_reply .not_found)
    (str "/") (str "<h1>hi</h1>") (by decide) hg (by decide) (by decide) rfl⟩

theorem live_reply_eq (env : collaborators) (req : request) (rep : reply)
    (data img : List Nat) (hd : url_decode req.uri = (true, str "/live"))
    (ho : env.cam.open_ok = true) (hdata : (env.cam.frames 0).data = some data)
    (hi : to_jpg_image env.tj data (env.cam.frames 0).width (env.cam.frames 0).height 85
      = some img) :
    (handle_request env req rep).rep
      = ⟨rep.status, [⟨str "Content-Length", to_string img.length⟩,
          ⟨str "Content-Type", env.extension_to_type (str "jpg")⟩], img⟩ := by
  have hr : path_rejected (str "/live") = false := by decide
  have ha : add_index (str "/live") = str "/live" := by decide
  unfold handle_request
  simp only [hd, hr, ha, ho, hdata, hi, fill_headers_eq]
  simp

/-- C5: for the uri /live with a camera that opens and delivers a frame, the
body is the encoded frame at quality 85 and the two headers are as claimed,
but the status is the one the reply object held before the call: the /live
branch never assigns it, so a reply object holding internal_error comes back
with internal_error, not ok. -/
theorem handle_request_live_keeps_status :
    (handle_request sample_env (get "/live") (blank_reply .internal_error)).thrown = false
      ∧ some (handle_request sample_env (get "/live") (blank_reply .internal_error)).rep.content
          = to_jpg_image sample_env.tj [1, 2, 3, 4, 5, 6] 2 1 85
      ∧ (handle_request sample_env (get "/live") (blank_reply .internal_error)).rep.headers
          = [⟨str "Content-Length", str "9"⟩, ⟨str "Content-Type", str "image/jpeg"⟩]
      ∧ (handle_request sample_env (get "/live") (blank_reply .internal_error)).rep.status
          = .internal_error
      ∧ (handle_request sample_env (get "/live") (blank_reply .internal_error)).rep.status
          ≠ .ok := by
  decide

/-! ## The extension -/

theorem find_last_of_none {s : List Nat} {c : Nat} (h : c ∉ s) : find_last_of s c = none := by
  induction s with
  | nil => rfl
  | cons x s ih =>
    have h1 : c ∉ s := fun hc => h (List.mem_cons_of_mem _ hc)
    have h2 : x ≠ c := fun hc => h (hc ▸ List.mem_cons_self _ _)
    simp [find_last_of, ih h1, h2]

theorem find_last_of_append (pre post : List Nat) (c : Nat) (h : c ∉ post) :
    find_last_of (pre ++ c :: post) c = some pre.length := by
  induction pre with
  | nil => simp [find_last_of, find_last_of_none h]
  | cons x pre ih => simp [find_last_of, ih]

theorem last_split {s : List Nat} {c : Nat} (h : c ∈ s) :
    ∃ pre post, s = pre ++ c :: post ∧ c ∉ post := by
  induction s with
  | nil => simp at h
  | cons x s ih =>
    by_cases hs : c ∈ s
    · obtain ⟨pre, post, e, hn⟩ := ih hs
      exact ⟨x :: pre, post, by rw [e]; rfl, hn⟩
    · rcases List.mem_cons.mp h with rfl | h'
      · exact ⟨[], s, rfl, hs⟩
      · exact absurd h' hs

theorem is_extension_unique {path e1 e2 : List Nat} (h1 : is_extension path e1)
    (h2 : is_extension path e2) : e1 = e2 := by
  have key : ∀ {a b : List Nat}, (∃ pre, path = pre ++ 46 :: a ∧ 46 ∉ a ∧ 47 ∉ a) →
      (b = [] ∧ ∀ pre rest, path = pre ++ 46 :: rest → 46 ∈ rest ∨ 47 ∈ rest) → a = b := by
    rintro a b ⟨pre, e, h46, h47⟩ ⟨_, hall⟩
    rcases hall pre a e with h | h
    · exact absurd h h46
    · exact absurd h h47
  rcases h1 with ⟨pre1, e1', h46, h47⟩ | h1
  · rcases h2 with ⟨pre2, e2', k46, k47⟩ | h2
    · have f1 := find_last_of_append pre1 e1 46 h46
      have f2 := find_last_of_append pre2 e2 46 k46
      rw [← e1'] at f1
      rw [← e2', f1] at f2
      have hl : pre1.length = pre2.length := by simpa using f2
      have := e1'.symm.trans e2'
      exact (List.cons_inj_right _).mp (List.append_inj this hl).2
    · exact key ⟨pre1, e1', h46, h47⟩ h2
  · rcases h2 with h2 | h2
    · exact (key h2 h1).symm
    · rw [h1.1, h2.1]

theorem extension_of_spec (path : List Nat) (hh : path.head? = some 47) :
    is_extension path (extension_of path)
      ∧ 46 ∉ extension_of path ∧ 47 ∉ extension_of path := by
  have hslash : (47 : Nat) ∈ path := by
    cases path with
    | nil => simp at hh
    | cons x s =>
      simp only [List.head?_cons, Option.some.injEq] at hh
      subst hh
      exact List.mem_cons_self _ _
  obtain ⟨pre2, post2, e2, hn2⟩ := last_split hslash
  have fs : find_last_of path 47 = some pre2.length := by
    rw [e2]; exact find_last_of_append pre2 post2 47 hn2
  by_cases hdot : (46 : Nat) ∈ path
  · obtain ⟨pre, e, e1, hn1⟩ := last_split hdot
    have fd : find_last_of path 46 = some pre.length := by
      rw [e1]; exact find_last_of_append pre e 46 hn1
    by_cases hlt : pre.length > pre2.length
    · have hext : extension_of path = e := by
        unfold extension_of
        rw [fd, fs]
        simp only [if_pos hlt]
        rw [e1]
        simp
      have hno : (47 : Nat) ∉ e := by
        intro h47
        obtain ⟨a, b, ea, hb⟩ := last_split h47
        have : find_last_of path 47 = some (pre ++ 46 :: a).length := by
          rw [e1, ea]
          have := find_last_of_append (pre ++ 46 :: a) b 47 hb
          simpa using this
        rw [fs] at this
        simp at this
        omega
      rw [hext]
      exact ⟨Or.inl ⟨pre, e1, hn1, hno⟩, hn1, hno⟩
    · have hext : extension_of path = [] := by
        unfold extension_of
        rw [fd, fs]
        simp only [if_neg hlt]
      rw [hext]
      refine ⟨Or.inr ⟨rfl, ?_⟩, by simp, by simp⟩
      intro pre' rest' e' 
      by_contra hcon
      simp only [not_or] at hcon
      obtain ⟨h46, h47⟩ := hcon
      have fd' : find_last_of path 46 = some pre'.length := by
        rw [e']; exact find_last_of_append pre' rest' 46 h46
      have hin : (47 : Nat) ∈ pre' := by
        rw [e'] at hslash
        rcases List.mem_append.mp hslash with h | h
        · exact h
        · rcases List.mem_cons.mp h with h | h
          · omega
          · exact absurd h h47
      obtain ⟨a, b, ea, hb⟩ := last_split hin
      have : find_last_of path 47 = some a.length := by
        rw [e', ea]
        have hnb : (47 : Nat) ∉ b ++ 46 :: rest' := by
          simp [hb, h47]
        have := find_last_of_append a (b ++ 46 :: rest') 47 hnb
        simpa using this
      rw [fs] at this
      rw [fd] at fd'
      simp only [Option.some.injEq] at this fd'
      have hl : pre'.length = a.length + 1 + b.length := by rw [ea]; simp; omega
      omega
  · have fd : find_last_of path 46 = none := find_last_of_none hdot
    have hext : extension_of path = [] := by
      unfold extension_of
      rw [fd]
    rw [hext]
    refine ⟨Or.inr ⟨rfl, ?_⟩, by simp, by simp⟩
    intro pre' rest' e'
    exact absurd (by rw [e']; simp) hdot

theorem add_index_head {p : List Nat} (h : p.head? = some 47) : (add_index p).head? = some 47 := by
  unfold add_index
  split_ifs
  · cases p with
    | nil => simp at h
    | cons x s => simpa using h
  · exact h

/-- C7: for a decoded path p that passes the guard and is not /live, with q
the path after index.html is appended to a path ending in a slash, the one
extension handle_request hands to the MIME lookup is the text after the last
dot of q when that dot lies after the last slash, and empty otherwise; it
holds neither a slash nor a dot; the lookup is made exactly when the file
opens, and its result is the Content-Type header. -/
theorem handle_request_extension (env : collaborators) (req : request) (rep : reply)
    (p q : List Nat) (hd : url_decode req.uri = (true, p)) (hg : passes_guard p)
    (hl : p ≠ str "/live")
    (hq : q = if p.getLast? = some 47 then p ++ str "index.html" else p) :
    ∃ ext, is_extension q ext ∧ 46 ∉ ext ∧ 47 ∉ ext
      ∧ (∀ e, effect.mime_lookup e ∈ (handle_request env req rep).effects → e = ext)
      ∧ (∀ file, env.ifstream_open (c_str (env.doc_root_ ++ q)) = some file →
          effect.mime_lookup ext ∈ (handle_request env req rep).effects
            ∧ (handle_request env req rep).rep.headers.get? 1
                = some ⟨str "Content-Type", env.extension_to_type ext⟩) := by
  have hq2 : q = add_index p := hq
  obtain ⟨h1, h2, h3⟩ := extension_of_spec q (hq2 ▸ add_index_head hg.2.1)
  refine ⟨extension_of q, h1, h2, h3, ?_, ?_⟩
  · intro e he
    cases hf : env.ifstream_open (c_str (env.doc_root_ ++ add_index p)) with
    | none =>
      rw [handle_request_missing env req rep p hd hg hl hf] at he
      simp at he
    | some file =>
      rw [handle_request_file env req rep p file hd hg hl hf] at he
      simp at he
      rw [hq2]; exact he
  · intro file hf
    rw [hq2] at hf
    rw [handle_request_file env req rep p file hd hg hl hf, hq2]
    simp

theorem handle_request_extension_witness :
    url_decode (get "/a.b/").uri = (true, str "/a.b/") ∧ passes_guard (str "/a.b/")
      ∧ ∃ ext, is_extension (str "/a.b/index.html") ext ∧ 46 ∉ ext ∧ 47 ∉ ext
        ∧ (∀ e, effect.mime_lookup e
            ∈ (handle_request sample_env (get "/a.b/") (blank_reply .ok)).effects → e = ext)
        ∧ (∀ file, sample_env.ifstream_open (c_str (sample_env.doc_root_ ++ str "/a.b/index.html"))
              = some file →
            effect.mime_lookup ext
                ∈ (handle_request sample_env (get "/a.b/") (blank_reply .ok)).effects
              ∧ (handle_request sample_env (get "/a.b/") (blank_reply .ok)).rep.headers.get? 1
                  = some ⟨str "Content-Type", sample_env.extension_to_type ext⟩) :=
  have hg : passes_guard (str "/a.b/") := ⟨by decide, by decide, by
    rw [← find_isSome_iff]; decide⟩
  ⟨by decide, hg, handle_request_extension sample_env (get "/a.b/") (blank_reply .ok)
    (str "/a.b/") (str "/a.b/index.html") (by decide) hg (by decide) (by decide)⟩

/-! ## The connection -/

/-- C6: the frame written for an encoded image img of length n is the boundary
line --mjpeg, the line Content-Type:image/jpeg, the text Content-Length:
followed by the decimal representation of n and directly by the image bytes,
two line ends, the image bytes again and a line end; its length is 55 plus
the number of decimal digits of n plus 2n. -/
theorem mjpeg_frame_layout (img : List Nat) :
    mjpeg_frame img
        = str "--mjpeg\r\n" ++ (str "Content-Type:image/jpeg\r\n" ++ (str "Content-Length:"
            ++ (decimal img.length ++ (img ++ (str "\r\n" ++ (str "\r\n"
            ++ (img ++ str "\r\n")))))))
      ∧ (mjpeg_frame img).length = 55 + (Nat.log 10 img.length + 1) + 2 * img.length := by
  have e : mjpeg_frame img
      = str "--mjpeg\r\n" ++ (str "Content-Type:image/jpeg\r\n" ++ (str "Content-Length:"
          ++ (decimal img.length ++ (img ++ (str "\r\n" ++ (str "\r\n"
          ++ (img ++ str "\r\n"))))))) := by
    unfold mjpeg_frame
    rw [to_string_eq_decimal]
    simp only [List.append_assoc]
  refine ⟨e, ?_⟩
  have l1 : (str "--mjpeg\r\n").length = 9 := by decide
  have l2 : (str "Content-Type:image/jpeg\r\n").length = 25 := by decide
  have l3 : (str "Content-Length:").length = 15 := by decide
  have l4 : (str "\r\n").length = 2 := by decide
  rw [e]
  simp only [List.length_append, l1, l2, l3, l4, decimal_length]
  omega

theorem frame_loop_succ {σ : Type} (env : server_env σ) (fuel k : Nat) :
    frame_loop env (fuel + 1) k
      = match (env.cam.frames k).data with
        | none => ([.cam_grab (env.cam.frames k).grab_ok], true)
        | some data =>
          match to_jpg_image env.tj data (env.cam.frames k).width (env.cam.frames k).height 75 with
          | none => ([.cam_grab (env.cam.frames k).grab_ok], true)
          | some img =>
            if env.write_ok (k + 1) then
              (.cam_grab (env.cam.frames k).grab_ok :: .write_frame (mjpeg_frame img) true
                :: .sleep :: (frame_loop env fuel (k + 1)).1, (frame_loop env fuel (k + 1)).2)
            else
              ([.cam_grab (env.cam.frames k).grab_ok, .write_frame (mjpeg_frame img) false],
                true) := rfl

theorem frame_loop_writes {σ : Type} (env : server_env σ) (fuel : Nat) :
    ∀ k content ok, io_event.write_frame content ok ∈ (frame_loop env fuel k).1 →
      ∃ img, content = mjpeg_frame img := by
  induction fuel with
  | zero => intro k content ok h; simp [frame_loop] at h
  | succ fuel ih =>
    intro k content ok h
    rw [frame_loop_succ] at h
    cases hd : (env.cam.frames k).data with
    | none => simp [hd] at h
    | some data =>
      cases hi : to_jpg_image env.tj data (env.cam.frames k).width (env.cam.frames k).height 75 with
      | none => simp [hd, hi] at h
      | some img =>
        by_cases hw : env.write_ok (k + 1) = true
        · simp only [hd, hi, hw, if_true, List.mem_cons] at h
          rcases h with h | h | h | h
          · cases h
          · cases h; exact ⟨img, rfl⟩
          · cases h
          · exact ih _ _ _ h
        · simp only [hd, hi, hw, if_false, List.mem_cons, Bool.false_eq_true] at h
          rcases h with h | h | h
          · cases h
          · cases h; exact ⟨img, rfl⟩
          · simp at h

theorem frame_loop_events {σ : Type} (env : server_env σ) (fuel : Nat) :
    ∀ k e, e ∈ (frame_loop env fuel k).1 →
      (∃ ok, e = .cam_grab ok) ∨ (∃ content ok, e = .write_frame content ok) ∨ e = .sleep := by
  induction fuel with
  | zero => intro k e h; simp [frame_loop] at h
  | succ fuel ih =>
    intro k e h
    rw [frame_loop_succ] at h
    cases hd : (env.cam.frames k).data with
    | none =>
      simp only [hd, List.mem_singleton] at h
      exact Or.inl ⟨_, h⟩
    | some data =>
      cases hi : to_jpg_image env.tj data (env.cam.frames k).width (env.cam.frames k).height 75 with
      | none =>
        simp only [hd, hi, List.mem_singleton] at h
        exact Or.inl ⟨_, h⟩
      | some img =>
        by_cases hw : env.write_ok (k + 1) = true
        · simp only [hd, hi, hw, if_true, List.mem_cons] at h
          rcases h with h | h | h | h
          · exact Or.inl ⟨_, h⟩
          · exact Or.inr (Or.inl ⟨_, _, h⟩)
          · exact Or.inr (Or.inr h)
          · exact ih _ _ h
        · simp only [hd, hi, hw, if_false, List.mem_cons, Bool.false_eq_true] at h
          rcases h with h | h | h
          · exact Or.inl ⟨_, h⟩
          · exact Or.inr (Or.inl ⟨_, _, h⟩)
          · simp at h

theorem frame_loop_no_stop {σ : Type} (env : server_env σ) (fuel k : Nat) :
    io_event.manager_stop ∉ (frame_loop env fuel k).1 := by
  intro h
  rcases frame_loop_events env fuel k _ h with ⟨_, h⟩ | ⟨_, _, h⟩ | h <;> cases h

theorem frame_loop_no_handler {σ : Type} (env : server_env σ) (fuel k : Nat) :
    io_event.handle_request ∉ (frame_loop env fuel k).1 := by
  intro h
  rcases frame_loop_events env fuel k _ h with ⟨_, h⟩ | ⟨_, _, h⟩ | h <;> cases h

theorem stream_no_handler {σ : Type} (env : server_env σ) (fuel : Nat) (rep : reply) :
    io_event.handle_request ∉ (stream env fuel rep).1 := by
  unfold stream
  split_ifs with h1 h2 h3
  · simp
  · simp
  · simp [frame_loop_no_handler]
  · simp [frame_loop_no_handler]

/-- C8: a read completion without error is dispatched on the verdict of the
parser. On bad the reply becomes the stock bad_request reply and the only
thing done is one asynchronous write of it (no handler call, no shutdown, no
stop). On indeterminate the only thing done is another asynchronous read; the
parser state and the request are kept as the parser left them and the reply
is untouched. On good the request handler is called exactly once, and on no
other verdict is it called. A write completion without error then shuts the
socket down and stops the connection. -/
theorem on_read_dispatch {σ : Type} (env : server_env σ) (bytes : List Nat) (fuel : Nat)
    (c : connection σ) (verdict : result_type)
    (hv : (env.parse c.request_parser_ c.request_ bytes).1 = verdict) :
    (verdict = .bad →
        (on_read env .success bytes fuel c).reply_ = env.stock_reply .bad_request
        ∧ (on_read env .success bytes fuel c).trace
            = c.trace ++ [.async_write (env.stock_reply .bad_request)]
        ∧ (on_read env .success bytes fuel c).outstanding = c.outstanding ++ [.write]
        ∧ (on_write .success (on_read env .success bytes fuel c)).trace
            = c.trace ++ [.async_write (env.stock_reply .bad_request), .shutdown, .manager_stop])
      ∧ (verdict = .indeterminate →
        (on_read env .success bytes fuel c).trace = c.trace ++ [.async_read_some]
        ∧ (on_read env .success bytes fuel c).outstanding = c.outstanding ++ [.read]
        ∧ (on_read env .success bytes fuel c).request_parser_
            = (env.parse c.request_parser_ c.request_ bytes).2.1
        ∧ (on_read env .success bytes fuel c).request_
            = (env.parse c.request_parser_ c.request_ bytes).2.2
        ∧ (on_read env .success bytes fuel c).reply_ = c.reply_)
      ∧ (verdict = .good →
        ∃ rest, (on_read env .success bytes fuel c).trace = c.trace ++ .handle_request :: rest
          ∧ io_event.handle_request ∉ rest)
      ∧ (verdict ≠ .good →
        ∃ rest, (on_read env .success bytes fuel c).trace = c.trace ++ rest
          ∧ io_event.handle_request ∉ rest) := by
  refine ⟨?_, ?_, ?_, ?_⟩
  · intro h
    rw [h] at hv
    simp [on_read, on_write, do_write, hv]
  · intro h
    rw [h] at hv
    simp [on_read, do_read, hv]
  · intro h
    rw [h] at hv
    cases hh : env.handle_request (env.parse c.request_parser_ c.request_ bytes).2.2 c.reply_ with
    | none => exact ⟨[], by simp [on_read, hv, hh], by simp⟩
    | some r =>
      obtain ⟨is_mjpeg, rep⟩ := r
      cases is_mjpeg with
      | false => exact ⟨[.async_write rep], by simp [on_read, do_write, hv, hh], by simp⟩
      | true =>
        exact ⟨(stream env fuel rep).1, by simp [on_read, hv, hh], stream_no_handler env fuel rep⟩
  · intro h
    cases verdict with
    | good => exact absurd rfl h
    | bad =>
      exact ⟨[.async_write (env.stock_reply .bad_request)], by simp [on_read, do_write, hv], by simp⟩
    | indeterminate =>
      exact ⟨[.async_read_some], by simp [on_read, do_read, hv], by simp⟩

theorem on_read_dispatch_witness :
    ((sample_server.parse 0 (get "") [0, 1]).1 = .bad
        ∧ (on_write .success (on_read sample_server .success [0, 1] 0 sample_connection)).trace
          = [.async_write (sample_server.stock_reply .bad_request), .shutdown, .manager_stop])
      ∧ ((sample_server.parse 0 (get "") (str "GE")).1 = .indeterminate
        ∧ (on_read sample_server .success (str "GE") 0 sample_connection).trace
          = [.async_read_some])
      ∧ ((sample_server.parse 0 (get "") (str "/\n")).1 = .good
        ∧ ∃ rest, (on_read sample_server .success (str "/\n") 0 sample_connection).trace
            = [] ++ .handle_request :: rest ∧ io_event.handle_request ∉ rest) :=
  ⟨⟨by decide, ((on_read_dispatch sample_server [0, 1] 0 sample_connection .bad
      (by decide)).1 rfl).2.2.2⟩,
    ⟨by decide, ((on_read_dispatch sample_server (str "GE") 0 sample_connection .indeterminate
      (by decide)).2.1 rfl).1⟩,
    ⟨by decide, (on_read_dispatch sample_server (str "/\n") 0 sample_connection .good
      (by decide)).2.2.1 rfl⟩⟩

theorem frames_written_cons (e : io_event) (l : List io_event) :
    frames_written (e :: l) = (if is_frame_written e then 1 else 0) + frames_written l := by
  unfold frames_written
  by_cases h : is_frame_written e = true
  · simp [List.filter, h]; omega
  · simp [List.filter, h]

theorem frames_written_append (l m : List io_event) :
    frames_written (l ++ m) = frames_written l + frames_written m := by
  unfold frames_written
  simp

theorem frame_loop_first_failure {σ : Type} (env : server_env σ) (k : Nat)
    (hk : frame_fails env k = true) (fuel : Nat) :
    ∀ j, j ≤ k → (∀ i, j ≤ i → i < k → frame_fails env i = false) → k - j < fuel →
      (frame_loop env fuel j).2 = true ∧ frames_written (frame_loop env fuel j).1 = k - j := by
  induction fuel with
  | zero => intro j _ _ h; omega
  | succ fuel ih =>
    intro j hjk hbefore hfuel
    rw [frame_loop_succ]
    by_cases hj : j = k
    · subst hj
      unfold frame_fails at hk
      cases hd : (env.cam.frames j).data with
      | none => simp [frames_written_cons, frames_written, is_frame_written]
      | some data =>
        cases hi : to_jpg_image env.tj data (env.cam.frames j).width (env.cam.frames j).height 75 with
        | none => simp [hi, frames_written_cons, frames_written, is_frame_written]
        | some img =>
          simp only [hd, hi, Bool.not_eq_true'] at hk
          simp [hi, hk, frames_written_cons, frames_written, is_frame_written]
    · have hlt : j < k := by omega
      have hf := hbefore j (le_refl _) hlt
      unfold frame_fails at hf
      cases hd : (env.cam.frames j).data with
      | none => simp [hd] at hf
      | some data =>
        cases hi : to_jpg_image env.tj data (env.cam.frames j).width (env.cam.frames j).height 75 with
        | none => simp [hd, hi] at hf
        | some img =>
          simp only [hd, hi, Bool.not_eq_false'] at hf
          obtain ⟨h1, h2⟩ := ih (j + 1) (by omega)
            (fun i hi1 hi2 => hbefore i (by omega) hi2) (by omega)
          simp only [hd, hi, hf, if_true, h1, frames_written_cons, is_frame_written, h2]
          refine ⟨trivial, ?_⟩
          simp
          omega

/-- C9, amended: in streaming mode a failed write of the reply, a camera that
cannot be opened, and the first frame for which no image data is returned,
the encoder fails or the write fails each end the try block; the connection
manager's stop is then called once, as the last thing done, and the frames
written in full are exactly those before the failure (none when the reply
cannot be written or the camera cannot be opened). The flag grab() returns
takes no part in this. -/
theorem stream_ends_at_first_failure {σ : Type} (env : server_env σ) (rep : reply)
    (fuel k : Nat) :
    (env.write_ok 0 = false →
        stream env fuel rep = ([.write_reply rep false, .manager_stop], true))
      ∧ (env.write_ok 0 = true → env.cam.open_ok = false →
        stream env fuel rep
          = ([.write_reply rep true, .cam_open false, .manager_stop], true))
      ∧ (env.write_ok 0 = true → env.cam.open_ok = true →
        (∀ j, j < k → frame_fails env j = false) → frame_fails env k = true → k < fuel →
        (stream env fuel rep).2 = true
          ∧ frames_written (stream env fuel rep).1 = k
          ∧ stops (stream env fuel rep).1 = 1
          ∧ ∃ before, (stream env fuel rep).1 = before ++ [.manager_stop]) := by
  refine ⟨?_, ?_, ?_⟩
  · intro h
    simp [stream, h]
  · intro h1 h2
    simp [stream, h1, h2]
  · intro h1 h2 hbefore hk hfuel
    obtain ⟨e1, e2⟩ := frame_loop_first_failure env k hk fuel 0 (Nat.zero_le _)
      (fun i _ hi => hbefore i hi) (by omega)
    have hns := frame_loop_no_stop env fuel 0
    have hst : stream env fuel rep
        = (.write_reply rep true :: .cam_open true :: ((frame_loop env fuel 0).1
            ++ [.manager_stop]), true) := by
      simp [stream, h1, h2, e1]
    rw [hst]
    refine ⟨rfl, ?_, ?_, ?_⟩
    · simp only [frames_written_cons, frames_written_append, is_frame_written, e2]
      simp [frames_written, is_frame_written]
    · unfold stops
      simp [List.count_cons, List.count_append, List.count_eq_zero_of_not_mem hns]
    · exact ⟨.write_reply rep true :: .cam_open true :: (frame_loop env fuel 0).1, by simp⟩

theorem stream_ends_at_first_failure_witness :
    (closed_camera_server.write_ok 0 = true ∧ closed_camera_server.cam.open_ok = false
        ∧ stream closed_camera_server 5 (blank_reply .ok)
          = ([.write_reply (blank_reply .ok) true, .cam_open false, .manager_stop], true))
      ∧ ((∀ j, j < 2 → frame_fails sample_server j = false)
        ∧ frame_fails sample_server 2 = true
        ∧ (stream sample_server 5 (blank_reply .ok)).2 = true
        ∧ frames_written (stream sample_server 5 (blank_reply .ok)).1 = 2
        ∧ stops (stream sample_server 5 (blank_reply .ok)).1 = 1
        ∧ ∃ before, (stream sample_server 5 (blank_reply .ok)).1 = before ++ [.manager_stop]) :=
  have hb : ∀ j, j < 2 → frame_fails sample_server j = false := by decide
  ⟨⟨rfl, rfl, (stream_ends_at_first_failure closed_camera_server (blank_reply .ok) 5 0).2.1
      rfl rfl⟩,
    ⟨hb, by decide, (stream_ends_at_first_failure sample_server (blank_reply .ok) 5 2).2.2
      rfl rfl hb (by decide) (by decide)⟩⟩

/-- C9 as stated fails: with a camera whose first grab() fails (it returns
false) while the image buffer is not null, the streaming branch writes a frame
after that failure and ends only at the next grab, which leaves no image data. -/
theorem stream_ignores_failed_grab :
    stream stale_camera_server 5 (blank_reply .ok)
        = ([.write_reply (blank_reply .ok) true, .cam_open true, .cam_grab false,
            .write_frame (mjpeg_frame [255, 216, 75, 1, 2, 3, 4, 5, 6]) true, .sleep,
            .cam_grab false, .manager_stop], true)
      ∧ (stale_camera_server.cam.frames 0).grab_ok = false
      ∧ frames_written (stream stale_camera_server 5 (blank_reply .ok)).1 = 1 := by
  decide

/-! ## Runs of a connection -/

theorem stream_shape {σ : Type} (env : server_env σ) (fuel : Nat) (rep : reply) :
    io_event.manager_stop ∉ (stream env fuel rep).1
      ∨ ∃ before, (stream env fuel rep).1 = before ++ [.manager_stop]
          ∧ io_event.manager_stop ∉ before := by
  have hns := frame_loop_no_stop env fuel 0
  unfold stream
  by_cases h1 : env.write_ok 0 = true
  · by_cases h2 : env.cam.open_ok = true
    · by_cases h3 : (frame_loop env fuel 0).2 = true
      · right
        refine ⟨.write_reply rep true :: .cam_open true :: (frame_loop env fuel 0).1, ?_, ?_⟩
        · simp [h1, h2, h3]
        · simp [hns]
      · left
        simp [h1, h2, h3, hns]
    · right
      exact ⟨[.write_reply rep true, .cam_open false], by simp [h1, h2], by simp⟩
  · right
    exact ⟨[.write_reply rep false], by simp [h1], by simp⟩

theorem disciplined_append_stop {σ : Type} (c : connection σ) (evs : List io_event)
    (h : io_event.manager_stop ∉ c.trace) (he : io_event.manager_stop ∉ evs)
    (c2 : connection σ) (ho : c2.outstanding = [])
    (ht : c2.trace = c.trace ++ evs ++ [.manager_stop]) : disciplined c2 :=
  Or.inr ⟨ho, c.trace ++ evs, ht, by simp [h, he]⟩

theorem disciplined_append {σ : Type} (c : connection σ) (evs : List io_event)
    (h : io_event.manager_stop ∉ c.trace) (he : io_event.manager_stop ∉ evs)
    (c2 : connection σ) (ho : c2.outstanding.length ≤ 1)
    (ht : c2.trace = c.trace ++ evs) : disciplined c2 :=
  Or.inl ⟨by rw [ht]; simp [h, he], ho⟩

theorem on_read_disciplined {σ : Type} (env : server_env σ) (ec : error_code)
    (bytes : List Nat) (fuel : Nat) (c : connection σ)
    (h : io_event.manager_stop ∉ c.trace) (ho : c.outstanding = []) :
    disciplined (on_read env ec bytes fuel c) := by
  cases ec with
  | success =>
    cases hv : (env.parse c.request_parser_ c.request_ bytes).1 with
    | bad =>
      exact disciplined_append c [.async_write (env.stock_reply .bad_request)] h (by simp) _
        (by simp [on_read, do_write, hv, ho]) (by simp [on_read, do_write, hv])
    | indeterminate =>
      exact disciplined_append c [.async_read_some] h (by simp) _
        (by simp [on_read, do_read, hv, ho]) (by simp [on_read, do_read, hv])
    | good =>
      cases hh : env.handle_request (env.parse c.request_parser_ c.request_ bytes).2.2
          c.reply_ with
      | none =>
        exact disciplined_append c [.handle_request] h (by simp) _
          (by simp [on_read, hv, hh, ho]) (by simp [on_read, hv, hh])
      | some r =>
        obtain ⟨is_mjpeg, rep⟩ := r
        cases is_mjpeg with
        | false =>
          exact disciplined_append c [.handle_request, .async_write rep] h (by simp) _
            (by simp [on_read, do_write, hv, hh, ho]) (by simp [on_read, do_write, hv, hh])
        | true =>
          rcases stream_shape env fuel rep with hs | ⟨before, hb, hnb⟩
          · exact disciplined_append c (.handle_request :: (stream env fuel rep).1) h
              (by simp [hs]) _ (by simp [on_read, hv, hh, ho]) (by simp [on_read, hv, hh])
          · exact disciplined_append_stop c (.handle_request :: before) h (by simp [hnb]) _
              (by simp [on_read, hv, hh, ho]) (by simp [on_read, hv, hh, hb])
  | operation_aborted =>
    exact disciplined_append c [] h (by simp) _ (by simp [on_read, ho]) (by simp [on_read])
  | failure code =>
    exact disciplined_append_stop c [] h (by simp) _ (by simp [on_read, ho]) (by simp [on_read])

theorem on_write_disciplined {σ : Type} (ec : error_code) (c : connection σ)
    (h : io_event.manager_stop ∉ c.trace) (ho : c.outstanding = []) :
    disciplined (on_write ec c) := by
  cases ec with
  | success =>
    exact disciplined_append_stop c [.shutdown] h (by simp) _ (by simp [on_write, ho])
      (by simp [on_write])
  | operation_aborted =>
    exact disciplined_append c [] h (by simp) _ (by simp [on_write, ho]) (by simp [on_write])
  | failure code =>
    exact disciplined_append_stop c [] h (by simp) _ (by simp [on_write, ho])
      (by simp [on_write])

theorem outstanding_of_mem {σ : Type} {c : connection σ} (h : disciplined c) {op : operation}
    (hm : op ∈ c.outstanding) :
    c.outstanding = [op] ∧ io_event.manager_stop ∉ c.trace := by
  rcases h with ⟨h1, h2⟩ | ⟨h1, _⟩
  · refine ⟨?_, h1⟩
    rcases ho : c.outstanding with _ | ⟨a, t⟩
    · rw [ho] at hm; simp at hm
    · rw [ho] at hm h2
      have ht : t = [] := List.length_eq_zero.mp (by simpa using h2)
      subst ht
      simp at hm
      rw [hm]
  · rw [h1] at hm; simp at hm

theorem deliver_disciplined {σ : Type} (env : server_env σ) (c : connection σ) (d : completion)
    (h : disciplined c) : disciplined (deliver env c d) := by
  unfold deliver
  by_cases hm : d.op ∈ c.outstanding
  · obtain ⟨ho, hs⟩ := outstanding_of_mem h hm
    rw [if_pos hm]
    cases hop : d.op with
    | read => exact on_read_disciplined env _ _ _ _ hs (by simp [ho, hop])
    | write => exact on_write_disciplined _ _ hs (by simp [ho, hop])
  · rw [if_neg hm]; exact h

theorem disciplined_run {σ : Type} (env : server_env σ) (c : connection σ)
    (ds : List completion) (h : disciplined (start c)) : disciplined (run env c ds) := by
  unfold run
  generalize start c = s at h
  induction ds generalizing s with
  | nil => exact h
  | cons d ds ih => exact ih _ (deliver_disciplined env s d h)

theorem disciplined_start {σ : Type} (parser : σ) (req : request) (rep : reply) :
    disciplined (start (fresh parser req rep)) :=
  Or.inl ⟨by simp [start, do_read, fresh], by simp [start, do_read, fresh]⟩

/-- C10: in every run of a connection started with start(), at every point at
most one asynchronous operation is outstanding and connection_manager::stop
has been called at most once; once it has been called nothing more is done
and nothing is outstanding, so no handler runs again. The completion of the
outstanding operation with operation_aborted makes the handler do nothing;
with another error it calls stop once and nothing else; a write completion
without error shuts the socket down and then calls stop once. -/
theorem run_discipline {σ : Type} (env : server_env σ) (parser : σ) (req : request)
    (rep : reply) (ds : List completion) (c : connection σ)
    (hc : c = run env (fresh parser req rep) ds) :
    (c.outstanding.length ≤ 1 ∧ stops c.trace ≤ 1
        ∧ ∀ before after, c.trace = before ++ .manager_stop :: after →
            after = [] ∧ c.outstanding = [])
      ∧ ∀ d : completion, d.op ∈ c.outstanding →
          (d.ec = .operation_aborted →
              (deliver env c d).trace = c.trace ∧ (deliver env c d).outstanding = [])
            ∧ (∀ code, d.ec = .failure code →
              (deliver env c d).trace = c.trace ++ [.manager_stop]
                ∧ (deliver env c d).outstanding = [])
            ∧ (d.op = .write → d.ec = .success →
              (deliver env c d).trace = c.trace ++ [.shutdown, .manager_stop]
                ∧ (deliver env c d).outstanding = []) := by
  have hd : disciplined c := by
    rw [hc]; exact disciplined_run env _ ds (disciplined_start parser req rep)
  refine ⟨?_, ?_⟩
  · rcases hd with ⟨h1, h2⟩ | ⟨h1, before, h2, h3⟩
    · refine ⟨h2, ?_, ?_⟩
      · unfold stops
        rw [List.count_eq_zero_of_not_mem h1]; omega
      · intro b a e
        exact absurd (by rw [e]; simp) h1
    · refine ⟨by simp [h1], ?_, ?_⟩
      · unfold stops
        rw [h2]
        simp [List.count_append, List.count_eq_zero_of_not_mem h3]
      · intro b a e
        refine ⟨?_, h1⟩
        rw [h2] at e
        rcases List.eq_nil_or_concat a with ha | ⟨l, x, ha⟩
        · exact ha
        · rw [ha] at e
          have e2 : before ++ [io_event.manager_stop]
              = (b ++ io_event.manager_stop :: l) ++ [x] := by
            rw [e]; simp
          have := (List.append_inj' e2 rfl).1
          exact absurd (by rw [this]; simp) h3
  · intro d hm
    obtain ⟨ho, hs⟩ := outstanding_of_mem hd hm
    refine ⟨?_, ?_, ?_⟩
    · intro he
      cases hop : d.op <;> simp [deliver, hm, hop, he, on_read, on_write, ho]
    · intro code he
      cases hop : d.op <;> simp [deliver, hm, hop, he, on_read, on_write, ho]
    · intro hop he
      simp [deliver, hm, hop, he, on_write, ho]

theorem run_discipline_witness :
    stops (run sample_server sample_connection
        [⟨.read, .success, str "GE", 0⟩, ⟨.read, .success, str "T /\n", 0⟩,
          ⟨.write, .success, [], 0⟩]).trace ≤ 1
      ∧ (deliver sample_server (run sample_server sample_connection
          [⟨.read, .success, str "GE", 0⟩, ⟨.read, .success, str "T /\n", 0⟩])
          ⟨.write, .success, [], 0⟩).trace
        = (run sample_server sample_connection
            [⟨.read, .success, str "GE", 0⟩, ⟨.read, .success, str "T /\n", 0⟩]).trace
          ++ [.shutdown, .manager_stop] :=
  ⟨(run_discipline sample_server 0 (get "") (blank_reply .internal_error)
      [⟨.read, .success, str "GE", 0⟩, ⟨.read, .success, str "T /\n", 0⟩,
        ⟨.write, .success, [], 0⟩] _ rfl).1.2.1,
    (((run_discipline sample_server 0 (get "") (blank_reply .internal_error)
      [⟨.read, .success, str "GE", 0⟩, ⟨.read, .success, str "T /\n", 0⟩] _ rfl).2
        ⟨.write, .success, [], 0⟩ (by decide)).2.2 rfl rfl).1⟩

theorem on_read_keeps_reply {σ : Type} (env : server_env σ) (ec : error_code)
    (bytes : List Nat) (fuel : Nat) (c : connection σ) (ho : c.outstanding = [])
    (hr : operation.read ∈ (on_read env ec bytes fuel c).outstanding) :
    (on_read env ec bytes fuel c).reply_ = c.reply_ := by
  cases ec with
  | success =>
    cases hv : (env.parse c.request_parser_ c.request_ bytes).1 with
    | bad => simp [on_read, do_write, hv, ho] at hr
    | indeterminate => simp [on_read, do_read, hv]
    | good =>
      cases hh : env.handle_request (env.parse c.request_parser_ c.request_ bytes).2.2
          c.reply_ with
      | none => simp [on_read, hv, hh, ho] at hr
      | some r =>
        obtain ⟨is_mjpeg, rep⟩ := r
        cases is_mjpeg <;> simp [on_read, do_write, hv, hh, ho] at hr
  | operation_aborted => simp [on_read]
  | failure code => simp [on_read]

theorem deliver_keeps_reply {σ : Type} (env : server_env σ) (c : connection σ) (d : completion)
    (rep : reply) (h : disciplined c) (hk : operation.read ∈ c.outstanding → c.reply_ = rep)
    (hr : operation.read ∈ (deliver env c d).outstanding) : (deliver env c d).reply_ = rep := by
  unfold deliver at hr ⊢
  by_cases hm : d.op ∈ c.outstanding
  · obtain ⟨ho, _⟩ := outstanding_of_mem h hm
    rw [if_pos hm] at hr ⊢
    cases hop : d.op with
    | read =>
      rw [hop] at hm
      simp only [hop] at hr ⊢
      rw [on_read_keeps_reply env _ _ _ _ (by simp [ho, hop]) hr]
      exact hk hm
    | write =>
      simp only [hop] at hr
      cases hec : d.ec <;> simp [on_write, hec, ho, hop] at hr
  · rw [if_neg hm] at hr ⊢
    exact hk hr

/-- In every run, as long as a read is outstanding the reply object is the one
the connection was constructed with: the request handler, which only a read
completion calls, is handed the reply as constructed. -/
theorem run_keeps_reply {σ : Type} (env : server_env σ) (parser : σ) (req : request)
    (rep : reply) (ds : List completion)
    (hr : operation.read ∈ (run env (fresh parser req rep) ds).outstanding) :
    (run env (fresh parser req rep) ds).reply_ = rep := by
  have key : ∀ (ds : List completion) (s : connection σ), disciplined s →
      (operation.read ∈ s.outstanding → s.reply_ = rep) →
      operation.read ∈ (ds.foldl (deliver env) s).outstanding →
      (ds.foldl (deliver env) s).reply_ = rep := by
    intro ds
    induction ds with
    | nil => intro s _ hk h; exact hk h
    | cons d ds ih =>
      intro s hd hk h
      exact ih (deliver env s d) (deliver_disciplined env s d hd)
        (deliver_keeps_reply env s d rep hd hk) h
  exact key ds (start (fresh parser req rep)) (disciplined_start parser req rep)
    (fun _ => rfl) hr

end http.server
